import Mathlib

/-!
Shallow embedding of `scripts/cleanup_report.py` (cleanup-report tool of the
aws-doc-sdk-examples repository) and proofs about it.

The script reads `metadata.yaml` documents scattered over a directory tree,
collects the recognised source files of the tree, and writes a report that
reconciles the two.  The embedding below translates the script's pure logic:

* `quote` / `pathname2url` model `urllib.request.pathname2url` on a posix
  system, i.e. `urllib.parse.quote` with safe character `/` (percent-encoding
  of the UTF-8 bytes of every character that is not a letter, digit or one of
  `_.-~/`).
* `urljoin` models `urllib.parse.urljoin` restricted to the use this script
  makes of it: the base is an absolute `https` URL of the shape
  `scheme://host/path`, and the reference is a relative percent-encoded path
  (no scheme, no authority, no query, no fragment, not starting with `/`);
  in that case the reference replaces everything after the last slash of the
  base and dot segments are resolved.
* `os_path_split_head` models `os.path.split(p)[0]`, `splitext_ext` models
  `os.path.splitext(p)[1]`, `lstripDots` models `str.lstrip('.')`, and
  `os_path_join` models `os.path.join` for relative second components —
  all for posix separators, which is what the constructed URLs use.
* Machine strings are Lean `String`s; `strLower` models `str.lower()`
  for the ASCII strings this program manipulates (URLs built by `quote` are
  pure ASCII).
-/

namespace CleanupReport

/-- Characters of one slash-separated component list: models Python's
`s.split('/')`. -/
def splitSlash : List Char → List (List Char)
  | [] => [[]]
  | c :: rest =>
    let r := splitSlash rest
    if c = '/' then [] :: r
    else
      match r with
      | [] => [[c]]
      | s :: ss => (c :: s) :: ss

/-- Models Python's slash-join of a part list at the character level. -/
def joinSlash : List (List Char) → List Char
  | [] => []
  | [s] => s
  | s :: rest => s ++ '/' :: joinSlash rest

/-- Worker of `removeDotSegments`: RFC 3986 dot-segment removal over path
segments, as performed by `urllib.parse.urljoin` when resolving a relative
reference.  A trailing `.` or `..` segment leaves a trailing slash. -/
def rdsGo (acc : List (List Char)) : List (List Char) → List (List Char)
  | [] => acc.reverse
  | [seg] =>
    if seg = ['.'] then acc.reverse ++ [[]]
    else if seg = ['.', '.'] then (acc.drop 1).reverse ++ [[]]
    else acc.reverse ++ [seg]
  | seg :: rest =>
    if seg = ['.'] then rdsGo acc rest
    else if seg = ['.', '.'] then rdsGo (acc.drop 1) rest
    else rdsGo (seg :: acc) rest

/-- RFC 3986 dot-segment removal over a segment list. -/
def removeDotSegments (segs : List (List Char)) : List (List Char) :=
  rdsGo [] segs

/-- The sixteen upper-case hexadecimal digits used by percent-encoding. -/
def hexDigits : List Char :=
  ['0', '1', '2', '3', '4', '5', '6', '7', '8', '9', 'A', 'B', 'C', 'D', 'E', 'F']

/-- The n-th hexadecimal digit (callers pass values below 16). -/
def hexDigit (n : Nat) : Char := hexDigits.getD n '0'

/-- Percent-encoding of one byte, e.g. `0x2F ↦ "%2F"`. -/
def byteToPct (b : UInt8) : List Char :=
  ['%', hexDigit (b.toNat / 16), hexDigit (b.toNat % 16)]

/-- The characters `urllib.parse.quote` leaves unencoded when called with
`safe='/'`: ASCII letters and digits, `_`, `.`, `-`, `~` and `/`. -/
def isSafeChar (c : Char) : Bool :=
  c.isAlpha || c.isDigit || c = '_' || c = '.' || c = '-' || c = '~' || c = '/'

/-- One character of `urllib.parse.quote(s, safe='/')`: safe characters pass
through, every other character becomes the percent-encoding of its UTF-8
bytes. -/
def quoteChar (c : Char) : List Char :=
  if isSafeChar c then [c]
  else ((String.toUTF8 (String.singleton c)).toList.map byteToPct).flatten

/-- Models `urllib.parse.quote(s, safe='/')`. -/
def quote (s : String) : String :=
  ⟨(s.data.map quoteChar).flatten⟩

/-- Models `urllib.request.pathname2url` on posix, which is `quote`. -/
def pathname2url (p : String) : String := quote p

/-- Models `urllib.parse.urljoin(base, ref)` under the restriction stated at
the top of the file: `base` is `scheme://host/…` and `ref` is a relative
path.  `urljoin` with an empty reference returns the base; otherwise the
reference replaces the part of the base after its last slash and dot
segments are resolved. -/
def urljoin (base ref : String) : String :=
  if ref = "" then base
  else
    let baseParts := splitSlash base.data
    let netlocParts := baseParts.take 3
    let pathParts := baseParts.drop 3
    let merged := pathParts.dropLast ++ splitSlash ref.data
    ⟨joinSlash (netlocParts ++ removeDotSegments merged)⟩

/-- `METADATA_FILENAME` of the script. -/
def METADATA_FILENAME : String := "metadata.yaml"

/-- `GITHUB_URL` of the script: the fixed GitHub base URL. -/
def GITHUB_URL : String :=
  "https://github.com/awsdocs/aws-doc-sdk-examples/tree/master/"

/-- `EXT_LOOKUP` of the script: extension-to-language table.  A file must
have one of these extensions to be counted in the file total. -/
def EXT_LOOKUP : List (String × String) :=
  [("c", "C"), ("cpp", "C++"), ("cs", "C#"), ("go", "Go"),
   ("html", "JavaScript"), ("java", "Java"), ("js", "JavaScript"),
   ("php", "PHP"), ("py", "Python"), ("rb", "Ruby"), ("ts", "TypeScript"),
   ("sh", "AWS-CLI"), ("cmd", "AWS-CLI")]

/-- Dictionary lookup `EXT_LOOKUP[e]`, `none` modelling a `KeyError`. -/
def extLookup (e : String) : Option String :=
  (EXT_LOOKUP.find? (fun kv => kv.fst == e)).map Prod.snd

/-- `IGNORE_FOLDERS` of the script. -/
def IGNORE_FOLDERS : List String :=
  ["venv", "scripts", "__pycache__", ".pytest_cache"]

/-- `make_github_url(folder_name, file_name)` of the script: concatenate the
GitHub base URL, the relative folder path and the file name into a full URL. -/
def make_github_url (folder_name file_name : String) : String :=
  let folder_url := pathname2url folder_name
  let base_url := urljoin GITHUB_URL folder_url ++ "/"
  let file_url := pathname2url file_name
  urljoin base_url file_url

/-- Models `os.path.split(p)[0]` on posix: the text before the final slash,
with trailing slashes stripped from it unless it consists of slashes only. -/
def os_path_split_head (p : String) : String :=
  let rev := p.data.reverse
  let headRev := rev.dropWhile (fun c => c ≠ '/')
  if headRev.any (fun c => c ≠ '/') then
    ⟨(headRev.dropWhile (fun c => c = '/')).reverse⟩
  else
    ⟨headRev.reverse⟩

/-- Models `os.path.splitext(p)[1]` on posix: the extension starting at the
last dot of the last path component, empty when that component has no dot or
only leading dots. -/
def splitext_ext (p : String) : String :=
  let base := (p.data.reverse.takeWhile (fun c => c ≠ '/')).reverse
  let baseRev := base.reverse
  let afterRev := baseRev.takeWhile (fun c => c ≠ '.')
  match baseRev.dropWhile (fun c => c ≠ '.') with
  | [] => ""
  | _ :: beforeRev =>
    if beforeRev.any (fun c => c ≠ '.') then ⟨'.' :: afterRev.reverse⟩ else ""

/-- Models `str.lstrip('.')`: drop every leading dot. -/
def lstripDots (s : String) : String :=
  ⟨s.data.dropWhile (fun c => c = '.')⟩

/-- Models `str.lower()` for the ASCII strings this program manipulates:
lower-case every character.  (Character-list form of `String.toLower`.) -/
def strLower (s : String) : String :=
  ⟨s.data.map Char.toLower⟩

/-- Models `os.path.join(a, b)` on posix for a relative second component:
a separator is inserted unless the first component is empty or already ends
with one. -/
def os_path_join (a b : String) : String :=
  if a = "" then b
  else if a.data.getLast? = some '/' then a ++ b
  else a ++ "/" ++ b

/-! ## Data model

A file entry of a metadata record is a Python mapping read from YAML; the
script accesses its `path` key (a `KeyError` when absent) and its `services`
key through `file.get('services', [''])` (a default when absent).  A record
is a mapping whose `files` key may be absent (a `KeyError`) and whose
`metadata_path` key is always set by `read_metadata`. -/

/-- One element of a record's `files` list.  `path := none` models a mapping
without a `path` key; `services := none` models a mapping without a
`services` key. -/
structure FileEntry where
  path : Option String
  services : Option (List String)
deriving Repr, DecidableEq

/-- One example dictionary as consumed by `write_report`: `metadata_path` is
set by `read_metadata`; `files := none` models a record without a `files`
key. -/
structure Example where
  metadata_path : String
  files : Option (List FileEntry)
deriving Repr, DecidableEq

/-- The mutable locals of `write_report` while it walks the examples:
`lines` starts with the CSV header, the other three lists start empty. -/
structure ReportState where
  lines : List String
  clean_files : List String
  missing_files : List String
  bad_examples : List Example
deriving Repr, DecidableEq

/-- The initial `write_report` state. -/
def initState : ReportState :=
  { lines := ["File,Language,Service"]
    clean_files := []
    missing_files := []
    bad_examples := [] }

/-- `','.join([file_url, language, service])` of the script. -/
def detailLine (file_url language service : String) : String :=
  file_url ++ ("," ++ (language ++ ("," ++ service)))

/-- `{rf.lower() for rf in repo_files}` of the script.  The script builds a
set; the model keeps the list, whose membership relation is the same. -/
def repoLookup (repo_files : List String) : List String :=
  repo_files.map strLower

/-- The body of the `for file in example['files']` loop of `write_report`
for one file entry.  The boolean is `false` when the Python code raises a
`KeyError` at this entry (a missing `path` key, or the `EXT_LOOKUP[ext]`
lookup failing); the returned state keeps every mutation made before the
raise, exactly as the Python lists do. -/
def processEntry (lookup : List String) (metadata_path : String)
    (st : ReportState) (file : FileEntry) : ReportState × Bool :=
  match file.path with
  | none => (st, false)
  | some p =>
    let metadata_folder := os_path_split_head metadata_path
    let file_url := make_github_url metadata_folder p
    if strLower file_url ∈ lookup then
      if file_url ∈ st.clean_files then
        (st, true)
      else
        let st1 := { st with clean_files := st.clean_files ++ [file_url] }
        let ext := lstripDots (splitext_ext file_url)
        match extLookup ext with
        | none => (st1, false)
        | some language =>
          let newLines := (file.services.getD [""]).map
            (fun service => detailLine file_url language service)
          ({ st1 with lines := st1.lines ++ newLines }, true)
    else
      ({ st with missing_files := st.missing_files ++ [file_url] }, true)

/-- The `for file in example['files']` loop: entries are processed in order
until one raises, in which case the remaining entries are skipped. -/
def processFiles (lookup : List String) (metadata_path : String)
    (st : ReportState) : List FileEntry → ReportState × Bool
  | [] => (st, true)
  | f :: fs =>
    let r := processEntry lookup metadata_path st f
    if r.2 then processFiles lookup metadata_path r.1 fs else (r.1, false)

/-- One iteration of the `for example in examples` loop, including the
`except KeyError` handler: a record whose `files` key is absent, or whose
processing raises part-way, is appended to `bad_examples`. -/
def processExample (lookup : List String) (st : ReportState)
    (ex : Example) : ReportState :=
  match ex.files with
  | none => { st with bad_examples := st.bad_examples ++ [ex] }
  | some fs =>
    let r := processFiles lookup ex.metadata_path st fs
    if r.2 then r.1
    else { r.1 with bad_examples := r.1.bad_examples ++ [ex] }

/-- The whole reconciliation loop of `write_report`. -/
def reconcile (examples : List Example) (repo_files : List String) :
    ReportState :=
  examples.foldl (processExample (repoLookup repo_files)) initState

/-- Models the `'{clean_count/total_count:.0%}'` format: the ratio times one
hundred rounded to the nearest integer, ties to even, in exact rational
arithmetic in place of the script's binary floating point (the two agree on
every value these proofs evaluate). -/
def formatPercent (clean_count total_count : Nat) : String :=
  let num := 100 * clean_count
  let q := num / total_count
  let r := num % total_count
  let rounded :=
    if total_count < 2 * r then q + 1
    else if 2 * r < total_count then q
    else if q % 2 = 0 then q else q + 1
  toString rounded ++ "%"

/-- `write_report(examples, repo_files)` of the script, returning the text
written to the report destination (the destination itself — a file or
standard output — only selects where the same text goes). -/
def write_report (examples : List Example) (repo_files : List String) :
    String :=
  let st := reconcile examples repo_files
  let clean_count := st.clean_files.length
  let total_count := repo_files.length
  let r1 := "Total number of examples: " ++
    (toString (examples.length - st.bad_examples.length) ++ ".\n")
  let r2 := "Total number of cleaned files: " ++
    (toString clean_count ++ ".\n")
  let r3 := "Total number of files: " ++ (toString total_count ++ ".\n")
  let r4 := if total_count > 0 then
      "Percent clean: " ++ (formatPercent clean_count total_count ++ ".")
    else ""
  let r5 := if st.lines.length > 1 then
      "\n" ++ String.intercalate "\n" st.lines
    else ""
  r1 ++ (r2 ++ (r3 ++ (r4 ++ r5)))

/-! ## Collector

The filesystem is external to the program; it is embedded as a value: a
`DirTree` holds, per directory, the regular files (with the YAML documents
a metadata file parses into, or `none` for a file whose YAML parse fails
with a scanner error) and the named subdirectories, both in the order the
walk reports them.  `gather_data`'s root argument "references an existing
directory" exactly when the embedded filesystem value is `some` tree. -/

/-- One YAML document of a metadata file, before `read_metadata` stamps the
`metadata_path` key onto it. -/
structure RawDoc where
  files : Option (List FileEntry)
deriving Repr, DecidableEq

/-- One regular file of a directory: its name, and for a file parsed as
YAML the list of its documents (`none` models a scanner error; the field is
irrelevant for files that are not named like metadata). -/
structure FileData where
  name : String
  docs : Option (List RawDoc)
deriving Repr, DecidableEq

/-- A directory: regular files and named subdirectories, in walk order. -/
inductive DirTree where
  | node : List FileData → List (String × DirTree) → DirTree

/-- `read_metadata(file_path, examples)` of the script: every document of
the file becomes one example carrying `metadata_path := file_path`; a file
whose parse fails contributes nothing (its documents are skipped). -/
def read_metadata (file_path : String) (docs : Option (List RawDoc)) :
    List Example :=
  match docs with
  | none => []
  | some ds => ds.map (fun d => { metadata_path := file_path, files := d.files })

/-- The `for file_name in file_list` loop of `gather_data`: a file whose
extension (lower-cased) is in `EXT_LOOKUP` is appended to the file list; an
other file whose name lower-cases to `metadata.yaml` is read as metadata. -/
def gatherFilesOf (folder_name : String) : List FileData →
    List Example × List String
  | [] => ([], [])
  | fd :: rest =>
    let here : List Example × List String :=
      let ext := lstripDots (splitext_ext fd.name)
      if (extLookup (strLower ext)).isSome then
        ([], [make_github_url folder_name fd.name])
      else if strLower fd.name = METADATA_FILENAME then
        (read_metadata (os_path_join folder_name fd.name) fd.docs, [])
      else ([], [])
    let there := gatherFilesOf folder_name rest
    (here.1 ++ there.1, here.2 ++ there.2)

mutual

/-- The walk of `gather_data` from one directory: its own files first, then
the non-ignored subdirectories depth-first, as `os.walk(..., topdown=True)`
visits them after the `dirs[:]` pruning. -/
def gatherDir (folder_name : String) : DirTree → List Example × List String
  | .node files subdirs =>
    let here := gatherFilesOf folder_name files
    let there := gatherSubdirs folder_name subdirs
    (here.1 ++ there.1, here.2 ++ there.2)

/-- The recursion of the walk into the pruned subdirectory list. -/
def gatherSubdirs (folder_name : String) :
    List (String × DirTree) → List Example × List String
  | [] => ([], [])
  | (d, t) :: rest =>
    if d ∈ IGNORE_FOLDERS then gatherSubdirs folder_name rest
    else
      let here := gatherDir (os_path_join folder_name d) t
      let there := gatherSubdirs folder_name rest
      (here.1 ++ there.1, here.2 ++ there.2)

end

/-- `gather_data(examples_folder)` of the script over the embedded
filesystem: `none` models a root that does not reference an existing
directory, making the up-front `os.path.isdir` check fail with the
`FileNotFoundError` the script raises; `some t` models an existing
directory tree, which is walked. -/
def gather_data (examples_folder : String) (fs : Option DirTree) :
    Except String (List Example × List String) :=
  match fs with
  | none => .error (examples_folder ++ " is not a directory.")
  | some t => .ok (gatherDir examples_folder t)

/-! ## Character-level facts about the URL constructors -/

theorem splitSlash_ne_nil (l : List Char) : splitSlash l ≠ [] := by
  cases l with
  | nil => simp [splitSlash]
  | cons c rest =>
    simp only [splitSlash]
    split
    · simp
    · split <;> simp

theorem mem_splitSlash : ∀ (l t : List Char), t ∈ splitSlash l →
    ∀ c ∈ t, c ∈ l := by
  intro l
  induction l with
  | nil =>
    intro t ht c hc
    simp [splitSlash] at ht
    subst ht
    simp at hc
  | cons a rest ih =>
    intro t ht c hc
    simp only [splitSlash] at ht
    by_cases ha : a = '/'
    · rw [if_pos ha] at ht
      rcases List.mem_cons.1 ht with h | h
      · subst h; simp at hc
      · exact List.mem_cons_of_mem _ (ih t h c hc)
    · rw [if_neg ha] at ht
      cases hs : splitSlash rest with
      | nil => exact absurd hs (splitSlash_ne_nil rest)
      | cons s ss =>
        rw [hs] at ht
        rcases List.mem_cons.1 ht with h | h
        · subst h
          rcases List.mem_cons.1 hc with h' | h'
          · subst h'; exact List.mem_cons_self _ _
          · refine List.mem_cons_of_mem _ (ih s ?_ c h')
            rw [hs]; exact List.mem_cons_self _ _
        · refine List.mem_cons_of_mem _ (ih t ?_ c hc)
          rw [hs]; exact List.mem_cons_of_mem _ h

theorem mem_joinSlash : ∀ (L : List (List Char)) (c : Char),
    c ∈ joinSlash L → c = '/' ∨ ∃ t ∈ L, c ∈ t := by
  intro L
  induction L with
  | nil => intro c hc; simp [joinSlash] at hc
  | cons s rest ih =>
    intro c hc
    cases rest with
    | nil => exact Or.inr ⟨s, by simp, by simpa [joinSlash] using hc⟩
    | cons s2 rest2 =>
      simp only [joinSlash] at hc
      rcases List.mem_append.1 hc with h | h
      · exact Or.inr ⟨s, by simp, h⟩
      · rcases List.mem_cons.1 h with h' | h'
        · exact Or.inl h'
        · rcases ih c h' with h'' | ⟨t, ht, hct⟩
          · exact Or.inl h''
          · exact Or.inr ⟨t, List.mem_cons_of_mem _ ht, hct⟩

theorem mem_rdsGo : ∀ (segs acc : List (List Char)) (t : List Char),
    t ∈ rdsGo acc segs → t ∈ acc ∨ t ∈ segs ∨ t = [] := by
  intro segs
  induction segs with
  | nil =>
    intro acc t ht
    simp only [rdsGo] at ht
    exact Or.inl (List.mem_reverse.1 ht)
  | cons seg rest ih =>
    intro acc t ht
    cases rest with
    | nil =>
      simp only [rdsGo] at ht
      split at ht
      · rcases List.mem_append.1 ht with h | h
        · exact Or.inl (List.mem_reverse.1 h)
        · simp at h; exact Or.inr (Or.inr h)
      · split at ht
        · rcases List.mem_append.1 ht with h | h
          · exact Or.inl (List.drop_subset 1 acc (List.mem_reverse.1 h))
          · simp at h; exact Or.inr (Or.inr h)
        · rcases List.mem_append.1 ht with h | h
          · exact Or.inl (List.mem_reverse.1 h)
          · simp at h; subst h; exact Or.inr (Or.inl (List.mem_cons_self _ _))
    | cons s2 rest2 =>
      simp only [rdsGo] at ht
      split at ht
      · rcases ih acc t ht with h | h | h
        · exact Or.inl h
        · exact Or.inr (Or.inl (List.mem_cons_of_mem _ h))
        · exact Or.inr (Or.inr h)
      · split at ht
        · rcases ih (acc.drop 1) t ht with h | h | h
          · exact Or.inl (List.drop_subset 1 acc h)
          · exact Or.inr (Or.inl (List.mem_cons_of_mem _ h))
          · exact Or.inr (Or.inr h)
        · rcases ih (seg :: acc) t ht with h | h | h
          · rcases List.mem_cons.1 h with h' | h'
            · subst h'; exact Or.inr (Or.inl (List.mem_cons_self _ _))
            · exact Or.inl h'
          · exact Or.inr (Or.inl (List.mem_cons_of_mem _ h))
          · exact Or.inr (Or.inr h)

theorem hexDigit_mem (n : Nat) : hexDigit n ∈ hexDigits := by
  unfold hexDigit List.getD
  cases h : hexDigits.get? n with
  | none => simp [h]; decide
  | some c => simp [h]; exact List.get?_mem h

theorem mem_quoteChar {c d : Char} (h : c ∈ quoteChar d) : c ≠ ',' := by
  unfold quoteChar at h
  split at h
  · next hsafe =>
    simp at h
    subst h
    intro hc
    rw [hc] at hsafe
    exact absurd hsafe (by decide)
  · rcases List.mem_flatten.1 h with ⟨t, ht, hct⟩
    rcases List.mem_map.1 ht with ⟨b, _, rfl⟩
    intro hc
    subst hc
    unfold byteToPct at hct
    rcases List.mem_cons.1 hct with h1 | h1
    · exact absurd h1.symm (by decide)
    · rcases List.mem_cons.1 h1 with h2 | h2
      · have := hexDigit_mem (b.toNat / 16)
        rw [← h2] at this
        exact absurd this (by decide)
      · rcases List.mem_cons.1 h2 with h3 | h3
        · have := hexDigit_mem (b.toNat % 16)
          rw [← h3] at this
          exact absurd this (by decide)
        · simp at h3

theorem quote_no_comma (s : String) : ',' ∉ (quote s).data := by
  intro h
  have hq : (quote s).data = (s.data.map quoteChar).flatten := rfl
  rw [hq] at h
  rcases List.mem_flatten.1 h with ⟨t, ht, hct⟩
  rcases List.mem_map.1 ht with ⟨d, _, rfl⟩
  exact mem_quoteChar hct rfl

theorem urljoin_chars {base ref : String} {c : Char}
    (h : c ∈ (urljoin base ref).data) :
    c ∈ base.data ∨ c ∈ ref.data ∨ c = '/' := by
  unfold urljoin at h
  split at h
  · exact Or.inl h
  · simp only at h
    rcases mem_joinSlash _ c h with h1 | ⟨t, ht, hct⟩
    · exact Or.inr (Or.inr h1)
    · rcases List.mem_append.1 ht with h2 | h2
      · exact Or.inl (mem_splitSlash _ t (List.take_subset 3 _ h2) c hct)
      · unfold removeDotSegments at h2
        rcases mem_rdsGo _ [] t h2 with h3 | h3 | h3
        · simp at h3
        · rcases List.mem_append.1 h3 with h4 | h4
          · exact Or.inl (mem_splitSlash _ t
              (List.drop_subset 3 _ (List.dropLast_subset _ h4)) c hct)
          · exact Or.inr (Or.inl (mem_splitSlash _ t h4 c hct))
        · subst h3; simp at hct

theorem make_github_url_no_comma (folder_name file_name : String) :
    ',' ∉ (make_github_url folder_name file_name).data := by
  intro h
  unfold make_github_url at h
  rcases urljoin_chars h with h1 | h1 | h1
  · rw [String.data_append] at h1
    rcases List.mem_append.1 h1 with h2 | h2
    · rcases urljoin_chars h2 with h3 | h3 | h3
      · exact absurd h3 (by decide)
      · exact quote_no_comma _ h3
      · exact absurd h3 (by decide)
    · exact absurd h2 (by decide)
  · exact quote_no_comma _ h1
  · exact absurd h1 (by decide)

/-! ## The reconciliation invariant

`StInv` collects the facts that the `write_report` loop maintains about its
state: every identifier of `clean_files` lower-cases into the lookup set,
`clean_files` has no exact duplicates, and every line after the CSV header
is headed by a comma-free identifier that lower-cases into the lookup set. -/

/-- A detail line: some comma-free identifier whose lower-casing is in the
lookup set, a comma, and a remainder. -/
def goodLine (lookup : List String) (l : String) : Prop :=
  ∃ v rest, l = v ++ ("," ++ rest) ∧ ',' ∉ v.data ∧ strLower v ∈ lookup

/-- The loop invariant of `write_report` over its state. -/
def StInv (lookup : List String) (st : ReportState) : Prop :=
  (∀ u ∈ st.clean_files, strLower u ∈ lookup) ∧
  st.clean_files.Nodup ∧
  st.lines ≠ [] ∧
  (∀ l ∈ st.lines.drop 1, goodLine lookup l)

theorem stInv_init (lookup : List String) : StInv lookup initState := by
  refine ⟨?_, ?_, ?_, ?_⟩ <;> simp [initState]

theorem processEntry_inv (lookup : List String) (metadata_path : String)
    (st : ReportState) (f : FileEntry) (h : StInv lookup st) :
    StInv lookup (processEntry lookup metadata_path st f).1 := by
  obtain ⟨h1, h2, h3, h4⟩ := h
  unfold processEntry
  split
  · exact ⟨h1, h2, h3, h4⟩
  · next p _ =>
    dsimp only
    split
    · next hlook =>
      split
      · exact ⟨h1, h2, h3, h4⟩
      · next hmem =>
        split
        · refine ⟨?_, ?_, h3, h4⟩
          · intro u hu
            rcases List.mem_append.1 hu with hu | hu
            · exact h1 u hu
            · simp at hu; subst hu; exact hlook
          · simp [List.nodup_append, h2, hmem]
        · next lang _ =>
          obtain ⟨hd, tl, hlines⟩ := List.exists_cons_of_ne_nil h3
          refine ⟨?_, ?_, ?_, ?_⟩
          · intro u hu
            rcases List.mem_append.1 hu with hu | hu
            · exact h1 u hu
            · simp at hu; subst hu; exact hlook
          · simp [List.nodup_append, h2, hmem]
          · simp [hlines]
          · intro l hl
            rw [hlines] at hl
            simp only [List.cons_append, List.drop_one, List.tail_cons] at hl
            rcases List.mem_append.1 hl with hl | hl
            · refine h4 l ?_
              rw [hlines]
              simpa using hl
            · rcases List.mem_map.1 hl with ⟨service, _, rfl⟩
              exact ⟨_, _, rfl, make_github_url_no_comma _ _, hlook⟩
    · exact ⟨h1, h2, h3, h4⟩

theorem processFiles_inv (lookup : List String) (metadata_path : String) :
    ∀ (fs : List FileEntry) (st : ReportState), StInv lookup st →
    StInv lookup (processFiles lookup metadata_path st fs).1 := by
  intro fs
  induction fs with
  | nil => intro st h; exact h
  | cons f rest ih =>
    intro st h
    unfold processFiles
    dsimp only
    split
    · exact ih _ (processEntry_inv lookup metadata_path st f h)
    · exact processEntry_inv lookup metadata_path st f h

theorem processExample_inv (lookup : List String) (st : ReportState)
    (ex : Example) (h : StInv lookup st) :
    StInv lookup (processExample lookup st ex) := by
  unfold processExample
  split
  · exact ⟨h.1, h.2.1, h.2.2.1, h.2.2.2⟩
  · next fs _ =>
    have hfi := processFiles_inv lookup ex.metadata_path fs st h
    dsimp only
    split
    · exact hfi
    · exact ⟨hfi.1, hfi.2.1, hfi.2.2.1, hfi.2.2.2⟩

theorem reconcile_inv (examples : List Example) (repo_files : List String) :
    StInv (repoLookup repo_files) (reconcile examples repo_files) := by
  have key : ∀ (es : List Example) (st : ReportState),
      StInv (repoLookup repo_files) st →
      StInv (repoLookup repo_files)
        (es.foldl (processExample (repoLookup repo_files)) st) := by
    intro es
    induction es with
    | nil => intro st h; exact h
    | cons e rest ih =>
      intro st h
      exact ih _ (processExample_inv _ st e h)
  exact key examples initState (stInv_init _)

/-- Two comma-free character lists followed by a comma determine each other:
the text before the first comma of a line is unique. -/
theorem comma_split_inj : ∀ (as cs bs ds : List Char), ',' ∉ as → ',' ∉ cs →
    as ++ ',' :: bs = cs ++ ',' :: ds → as = cs := by
  intro as
  induction as with
  | nil =>
    intro cs bs ds _ hcs h
    cases cs with
    | nil => rfl
    | cons c cs' =>
      simp only [List.nil_append, List.cons_append, List.cons.injEq] at h
      exact absurd (h.1 ▸ List.mem_cons_self ',' cs') hcs
  | cons a as' ih =>
    intro cs bs ds has hcs h
    cases cs with
    | nil =>
      simp only [List.cons_append, List.nil_append, List.cons.injEq] at h
      exact absurd (h.1 ▸ List.mem_cons_self a as') (h.1 ▸ has)
    | cons c cs' =>
      simp only [List.cons_append, List.cons.injEq] at h
      have tail_eq := ih cs' bs ds
        (fun hmem => has (List.mem_cons_of_mem _ hmem))
        (fun hmem => hcs (List.mem_cons_of_mem _ hmem)) h.2
      rw [h.1, tail_eq]

/-- String version of `comma_split_inj`, phrased over the exact append shape
`detailLine` produces. -/
theorem string_comma_inj (u v r s : String) (hu : ',' ∉ u.data)
    (hv : ',' ∉ v.data) (h : u ++ ("," ++ r) = v ++ ("," ++ s)) : u = v := by
  apply String.ext
  have hcomma : (",").data = [','] := rfl
  have hd := congrArg String.data h
  rw [String.data_append, String.data_append, String.data_append,
      String.data_append, hcomma] at hd
  exact comma_split_inj _ _ _ _ hu hv hd

/-! ## Concrete inputs used by witnesses and counterexamples -/

/-- A record that references one repository file under two casings of its
stem; both resolve case-insensitively to the same collected file. -/
def exCaseVariant : Example :=
  { metadata_path := "m/metadata.yaml"
    files := some [{ path := some "A.py", services := some ["s3"] },
                   { path := some "a.py", services := some ["s3"] }] }

/-- A one-element repository file list. -/
def repoOne : List String := [make_github_url "m" "a.py"]

/-! ## Claims -/

/-- C1, counterexample: with `repoOne` a single collected file and
`exCaseVariant` referencing it under two casings, the duplicate check of
`write_report` (exact string comparison) recognises neither reference as a
duplicate of the other while the repository match (lower-cased comparison)
accepts both, so `clean_files` ends with two entries against one collected
file and one of them is not an element of the collected list: the claimed
`len(cleanFiles) <= len(repoFiles)` bound and the subset inclusion both
fail. -/
theorem c1_length_bound_counterexample :
    ¬ (((reconcile [exCaseVariant] repoOne).clean_files.length ≤
          repoOne.length) ∧
       ∀ u ∈ (reconcile [exCaseVariant] repoOne).clean_files, u ∈ repoOne) := by
  decide

/-- C1, amended: every identifier accumulated in `clean_files` lower-cases
into the lower-cased repository lookup set, so the number of identifiers
that are distinct after lower-casing is at most `len(repoFiles)`.  The
unnormalised bound `len(cleanFiles) <= len(repoFiles)` of the claim does
not hold in general, because the duplicate check is case-sensitive while
the repository match is case-insensitive. -/
theorem c1_clean_files_lower_subset (examples : List Example)
    (repo_files : List String) :
    (∀ u ∈ (reconcile examples repo_files).clean_files,
        strLower u ∈ repoLookup repo_files) ∧
    ((reconcile examples repo_files).clean_files.map
        strLower).toFinset.card ≤ repo_files.length := by
  have hinv := reconcile_inv examples repo_files
  refine ⟨hinv.1, ?_⟩
  have hsub : ((reconcile examples repo_files).clean_files.map
      strLower).toFinset ⊆ (repoLookup repo_files).toFinset := by
    intro x hx
    rw [List.mem_toFinset] at hx ⊢
    rcases List.mem_map.1 hx with ⟨u, hu, rfl⟩
    exact hinv.1 u hu
  calc ((reconcile examples repo_files).clean_files.map
      strLower).toFinset.card
      ≤ (repoLookup repo_files).toFinset.card := Finset.card_le_card hsub
    _ ≤ (repoLookup repo_files).length := List.toFinset_card_le _
    _ = repo_files.length := by simp [repoLookup]

/-- C1, witness for the amended theorem at a concrete run. -/
theorem c1_clean_files_lower_subset_witness :
    strLower (make_github_url "m" "A.py") ∈ repoLookup repoOne :=
  (c1_clean_files_lower_subset [exCaseVariant] repoOne).1
    (make_github_url "m" "A.py") (by decide)

/-- The C2 scenario filesystem: the scanned root holds one directory `a`
containing the metadata document and the real file `x.py`. -/
def c2Doc : RawDoc :=
  { files := some [{ path := some "x.py", services := some ["s3"] }] }

def c2Tree : DirTree :=
  .node []
    [("a", .node
        [{ name := "metadata.yaml", docs := some [c2Doc] },
         { name := "x.py", docs := none }] [])]

/-- C2: on the scenario root (one metadata document for `x.py` with service
`s3`, one real file `a/x.py`), the pipeline produces exactly the four
summary lines, the CSV header and the single detail line of the claim, the
detail identifier being the GitHub base URL followed by `a/x.py`. -/
theorem c2_end_to_end :
    (gather_data "." (some c2Tree)).map (fun p => write_report p.1 p.2) =
      Except.ok ("Total number of examples: 1.\nTotal number of cleaned files: 1.\nTotal number of files: 1.\nPercent clean: 100%.\nFile,Language,Service\nhttps://github.com/awsdocs/aws-doc-sdk-examples/tree/master/a/x.py,Python,s3") := by
  rfl

/-- The state after the first reference of `exCaseVariant`'s file has been
recorded clean. -/
def stWithClean : ReportState :=
  { initState with clean_files := [make_github_url "m" "a.py"] }

/-- C3: a matching identifier is recorded in `clean_files` exactly once:
over any run `clean_files` is duplicate-free, and processing an entry whose
resolved identifier is already in `clean_files` (whether the earlier
reference sat in the same record or another one) returns the state
unchanged — no new `clean_files` element and no new detail line, so detail
lines can only come from the first encountered entry. -/
theorem c3_duplicate_counted_once (examples : List Example)
    (repo_files lookup : List String) (metadata_path : String)
    (st : ReportState) (f : FileEntry) (p : String)
    (hp : f.path = some p)
    (hlook : strLower (make_github_url (os_path_split_head metadata_path) p)
      ∈ lookup)
    (hmem : make_github_url (os_path_split_head metadata_path) p
      ∈ st.clean_files) :
    (reconcile examples repo_files).clean_files.Nodup ∧
    processEntry lookup metadata_path st f = (st, true) := by
  refine ⟨(reconcile_inv examples repo_files).2.1, ?_⟩
  unfold processEntry
  rw [hp]
  dsimp only
  rw [if_pos hlook, if_pos hmem]

/-- C3, witness: the second reference to `a.py` leaves the state as it is. -/
theorem c3_duplicate_counted_once_witness :
    (reconcile [exCaseVariant] repoOne).clean_files.Nodup ∧
    processEntry (repoLookup repoOne) "m/metadata.yaml" stWithClean
      { path := some "a.py", services := some ["s3"] } = (stWithClean, true) :=
  c3_duplicate_counted_once [exCaseVariant] repoOne (repoLookup repoOne)
    "m/metadata.yaml" stWithClean
    { path := some "a.py", services := some ["s3"] } "a.py"
    rfl (by decide) (by decide)

/-- A record whose first file entry resolves to a missing file and whose
second entry lacks the `path` key. -/
def exPartialBad : Example :=
  { metadata_path := "m/metadata.yaml"
    files := some [{ path := some "x.py", services := none },
                   { path := none, services := none }] }

/-- C4, counterexample: `exPartialBad` lacks a required key (`path` of its
second file entry), is tallied in `bad_examples` — yet it does not
contribute "nothing": its first entry was already appended to
`missing_files` before the `KeyError` was raised, so the record is not
skipped as a whole. -/
theorem c4_skipped_whole_counterexample :
    (reconcile [exPartialBad] []).bad_examples = [exPartialBad] ∧
    ¬ ((reconcile [exPartialBad] []).missing_files = []) := by
  decide

/-- The `for file in ...` loop stops at the first entry that raises: the
state reached just before that entry is kept and the remaining entries are
skipped. -/
theorem processFiles_stop (lookup : List String) (metadata_path : String) :
    ∀ (fs1 : List FileEntry) (st st1 : ReportState) (f : FileEntry)
      (fs2 : List FileEntry),
    processFiles lookup metadata_path st fs1 = (st1, true) → f.path = none →
    processFiles lookup metadata_path st (fs1 ++ f :: fs2) = (st1, false) := by
  intro fs1
  induction fs1 with
  | nil =>
    intro st st1 f fs2 h hf
    simp only [processFiles] at h
    injection h with h1 h2
    subst h1
    have hpe : processEntry lookup metadata_path st f = (st, false) := by
      unfold processEntry
      rw [hf]
    simp only [List.nil_append]
    unfold processFiles
    dsimp only
    rw [hpe]
    rfl
  | cons g gs ih =>
    intro st st1 f fs2 h hf
    simp only [List.cons_append]
    simp only [processFiles] at h ⊢
    cases hb : (processEntry lookup metadata_path st g).2 with
    | true =>
      simp only [hb, if_true] at h ⊢
      exact ih _ _ f fs2 h hf
    | false =>
      simp only [hb, Bool.false_eq_true, if_false] at h
      simp only [Prod.mk.injEq] at h
      exact absurd h.2 (by simp)

/-- C4, amended: a record without the `files` key contributes nothing and
is tallied in `bad_examples`; a record whose file entry lacks the `path`
key is tallied in `bad_examples` and the entries after the failing one
contribute nothing, but the contributions of the entries processed before
the failure are kept (they are not rolled back). -/
theorem c4_bad_record_tally (lookup : List String) (st st1 : ReportState)
    (ex : Example) (metadata_path : String) (fs1 fs2 : List FileEntry)
    (f : FileEntry) :
    (ex.files = none →
      processExample lookup st ex =
        { st with bad_examples := st.bad_examples ++ [ex] }) ∧
    (processFiles lookup metadata_path st fs1 = (st1, true) → f.path = none →
      processFiles lookup metadata_path st (fs1 ++ f :: fs2) = (st1, false)) ∧
    (ex.files = some (fs1 ++ f :: fs2) → ex.metadata_path = metadata_path →
      processFiles lookup metadata_path st fs1 = (st1, true) → f.path = none →
      processExample lookup st ex =
        { st1 with bad_examples := st1.bad_examples ++ [ex] }) := by
  refine ⟨?_, ?_, ?_⟩
  · intro h
    unfold processExample
    rw [h]
  · intro h hf
    exact processFiles_stop lookup metadata_path fs1 st st1 f fs2 h hf
  · intro hfs hmp hfiles hf
    unfold processExample
    rw [hfs]
    dsimp only
    rw [hmp, processFiles_stop lookup metadata_path fs1 st st1 f fs2 hfiles hf]
    rfl

/-- The state `exPartialBad`'s first entry leaves behind. -/
def stMissOne : ReportState :=
  { initState with missing_files := [make_github_url "m" "x.py"] }

/-- C4, witness for the amended theorem. -/
theorem c4_bad_record_tally_witness :
    processExample [] initState exPartialBad =
      { stMissOne with
          bad_examples := stMissOne.bad_examples ++ [exPartialBad] } :=
  (c4_bad_record_tally [] initState stMissOne exPartialBad "m/metadata.yaml"
      [{ path := some "x.py", services := none }] []
      { path := none, services := none }).2.2
    rfl rfl (by decide) rfl

/-- A record without a `files` key. -/
def exNoFiles : Example := { metadata_path := "m/metadata.yaml", files := none }

/-- C5: a record whose `files` key is absent is handled without raising: it
is appended to `bad_examples` and nothing else changes, and the first line
of the report text prints `len(examples) - len(badExamples)`, so such a
record is excluded from the "Total number of examples" count. -/
theorem c5_missing_files_key (lookup : List String) (st : ReportState)
    (ex : Example) (examples : List Example) (repo_files : List String)
    (h : ex.files = none) :
    processExample lookup st ex =
      { st with bad_examples := st.bad_examples ++ [ex] } ∧
    ∃ rest, write_report examples repo_files =
      ("Total number of examples: " ++
        (toString (examples.length -
          (reconcile examples repo_files).bad_examples.length) ++ ".\n")) ++
        rest := by
  constructor
  · unfold processExample
    rw [h]
  · exact ⟨_, rfl⟩

/-- C5, witness at a concrete record and run. -/
theorem c5_missing_files_key_witness :
    (processExample [] initState exNoFiles =
      { initState with
          bad_examples := initState.bad_examples ++ [exNoFiles] }) ∧
    ∃ rest, write_report [exNoFiles] [] =
      ("Total number of examples: " ++
        (toString (([exNoFiles] : List Example).length -
          (reconcile [exNoFiles] []).bad_examples.length) ++ ".\n")) ++
        rest :=
  c5_missing_files_key [] initState exNoFiles [exNoFiles] [] rfl

/-- C9: the reconciliation text depends only on the `(examples, repo_files)`
input — two runs over the same input yield the same report text. -/
theorem c9_deterministic (examples : List Example) (repo_files : List String)
    (s1 s2 : String) (h1 : write_report examples repo_files = s1)
    (h2 : write_report examples repo_files = s2) : s1 = s2 :=
  h1.symm.trans h2

/-- C9, witness at a concrete run. -/
theorem c9_deterministic_witness :
    write_report [exCaseVariant] repoOne = write_report [exCaseVariant] repoOne :=
  c9_deterministic [exCaseVariant] repoOne _ _ rfl rfl

/-- C6: an entry whose resolved identifier does not lower-case into the
repository lookup set is appended to `missing_files` while `clean_files`
and the detail lines stay untouched; moreover, over any full run, such an
identifier is never an element of `clean_files` and never heads a detail
line of the report (every detail line is headed by an identifier that does
lower-case into the lookup set). -/
theorem c6_missing_never_clean (examples : List Example)
    (repo_files lookup : List String) (metadata_path : String)
    (st : ReportState) (f : FileEntry) (p u : String)
    (hp : f.path = some p)
    (hu : u = make_github_url (os_path_split_head metadata_path) p)
    (hlook : strLower u ∉ lookup)
    (hrepo : strLower u ∉ repoLookup repo_files) :
    processEntry lookup metadata_path st f =
      ({ st with missing_files := st.missing_files ++ [u] }, true) ∧
    u ∉ (reconcile examples repo_files).clean_files ∧
    ∀ l ∈ (reconcile examples repo_files).lines.drop 1,
      ∀ rest, l ≠ u ++ ("," ++ rest) := by
  have hinv := reconcile_inv examples repo_files
  have hu_comma : ',' ∉ u.data := by
    rw [hu]
    exact make_github_url_no_comma _ _
  refine ⟨?_, ?_, ?_⟩
  · subst hu
    unfold processEntry
    rw [hp]
    dsimp only
    rw [if_neg hlook]
  · intro hmem
    exact hrepo (hinv.1 u hmem)
  · intro l hl rest hEq
    rcases hinv.2.2.2 l hl with ⟨v, vrest, hline, hvcomma, hvlook⟩
    have huv : u = v :=
      string_comma_inj u v rest vrest hu_comma hvcomma (hEq.symm.trans hline)
    refine hrepo ?_
    rw [huv]
    exact hvlook

/-- C6, witness at a concrete entry and run. -/
theorem c6_missing_never_clean_witness :
    processEntry [] "m/metadata.yaml" initState
        { path := some "x.py", services := none } =
      ({ initState with missing_files :=
          initState.missing_files ++ [make_github_url "m" "x.py"] }, true) ∧
    make_github_url "m" "x.py" ∉ (reconcile [exPartialBad] []).clean_files ∧
    ∀ l ∈ (reconcile [exPartialBad] []).lines.drop 1,
      ∀ rest, l ≠ make_github_url "m" "x.py" ++ ("," ++ rest) :=
  c6_missing_never_clean [exPartialBad] [] [] "m/metadata.yaml" initState
    { path := some "x.py", services := none } "x.py"
    (make_github_url "m" "x.py") rfl (by decide) (by decide) (by decide)

/-- C7: a Clean-classified entry (matching, not yet recorded, language
found) with no `services` key produces exactly one detail line carrying the
empty service tag; with a `services` list it produces one detail line per
service tag, each of the form `file,language,service`. -/
theorem c7_service_lines (lookup : List String) (metadata_path : String)
    (st : ReportState) (f : FileEntry) (p u lang : String)
    (hp : f.path = some p)
    (hu : u = make_github_url (os_path_split_head metadata_path) p)
    (hlook : strLower u ∈ lookup)
    (hnew : u ∉ st.clean_files)
    (hlang : extLookup (lstripDots (splitext_ext u)) = some lang) :
    (f.services = none →
      processEntry lookup metadata_path st f =
        ({ st with clean_files := st.clean_files ++ [u],
                   lines := st.lines ++ [detailLine u lang ""] }, true)) ∧
    (∀ svcs, f.services = some svcs →
      processEntry lookup metadata_path st f =
        ({ st with clean_files := st.clean_files ++ [u],
                   lines := st.lines ++
                     svcs.map (fun s => detailLine u lang s) }, true)) := by
  subst hu
  constructor
  · intro hs
    unfold processEntry
    rw [hp]
    dsimp only
    rw [if_pos hlook, if_neg hnew, hlang]
    dsimp only
    rw [hs]
    rfl
  · intro svcs hs
    unfold processEntry
    rw [hp]
    dsimp only
    rw [if_pos hlook, if_neg hnew, hlang]
    dsimp only
    rw [hs]
    rfl

/-- C7, witness: the first `a.py` reference (which declares `["s3"]`) and
an otherwise-identical entry without the `services` key. -/
theorem c7_service_lines_witness :
    (FileEntry.services { path := some "a.py", services := some ["s3"] } =
        none →
      processEntry (repoLookup repoOne) "m/metadata.yaml" initState
          { path := some "a.py", services := some ["s3"] } =
        ({ initState with
            clean_files := initState.clean_files ++ [make_github_url "m" "a.py"],
            lines := initState.lines ++
              [detailLine (make_github_url "m" "a.py") "Python" ""] }, true)) ∧
    (∀ svcs,
      FileEntry.services { path := some "a.py", services := some ["s3"] } =
          some svcs →
      processEntry (repoLookup repoOne) "m/metadata.yaml" initState
          { path := some "a.py", services := some ["s3"] } =
        ({ initState with
            clean_files := initState.clean_files ++ [make_github_url "m" "a.py"],
            lines := initState.lines ++
              svcs.map (fun s =>
                detailLine (make_github_url "m" "a.py") "Python" s) }, true)) :=
  c7_service_lines (repoLookup repoOne) "m/metadata.yaml" initState
    { path := some "a.py", services := some ["s3"] } "a.py"
    (make_github_url "m" "a.py") "Python"
    rfl (by decide) (by decide) (by decide) (by decide)

/-- C8: a root that does not reference an existing directory makes
`gather_data` fail with the "is not a directory" error before any
traversal, producing neither examples nor file identifiers; on a root that
is a directory the check passes and the walk returns a result. -/
theorem c8_gather_data_isdir (root : String) (t : DirTree) :
    gather_data root none = Except.error (root ++ " is not a directory.") ∧
    ∃ res, gather_data root (some t) = Except.ok res :=
  ⟨rfl, ⟨gatherDir root t, rfl⟩⟩

/-- The C10 scenario: as C2, but the real file (and the metadata reference
to it) carry the upper-case extension `.PY`. -/
def c10Doc : RawDoc :=
  { files := some [{ path := some "x.PY", services := some ["s3"] }] }

def c10Tree : DirTree :=
  .node []
    [("a", .node
        [{ name := "metadata.yaml", docs := some [c10Doc] },
         { name := "x.PY", docs := none }] [])]

/-- The identifier the collector builds for `a/x.PY`. -/
def c10Url : String := make_github_url "./a" "x.PY"

/-- The examples the collector reads in the C10 scenario. -/
def c10Examples : List Example :=
  [{ metadata_path := "./a/metadata.yaml"
     files := some [{ path := some "x.PY", services := some ["s3"] }] }]

/-- C10: the collector admits `x.PY` because it lower-cases the extension
before consulting `EXT_LOOKUP`, but `write_report` indexes `EXT_LOOKUP`
with the raw extension of the URL, so for this collected, matching file the
lookup fails (`KeyError`) after the identifier was already appended to
`clean_files`: the containing record is tallied in `bad_examples` and no
detail line is emitted for the file. -/
theorem c10_ext_case_mismatch :
    gather_data "." (some c10Tree) = Except.ok (c10Examples, [c10Url]) ∧
    extLookup (strLower (lstripDots (splitext_ext "x.PY"))) = some "Python" ∧
    extLookup (lstripDots (splitext_ext c10Url)) = none ∧
    (reconcile c10Examples [c10Url]).clean_files = [c10Url] ∧
    (reconcile c10Examples [c10Url]).bad_examples = c10Examples ∧
    (reconcile c10Examples [c10Url]).lines = ["File,Language,Service"] := by
  refine ⟨rfl, rfl, rfl, ?_, ?_, ?_⟩ <;> decide

end CleanupReport
